import Mathlib

/-!
Shallow embedding of the unearth rust core (link.rs, evaluator.rs, source.rs,
hash.rs, error.rs) used to settle the specification claims.  Strings are
modelled as lists of characters; rust byte indices coincide with character
indices on the ASCII inputs the claims exercise.  HashMap values are modelled
as association lists with insertion-order iteration.  External collaborators
(the HTTP client, the pep440/pep508/pep_427 parsers, the url crate's parser
and the cryptographic digest cores) are abstracted as oracle parameters;
everything the repository itself computes is embedded from the source.
-/

namespace Unearth

abbrev Str := List Char

/-- Models rust str::starts_with on the character-list representation. -/
def isPrefixOfB : Str → Str → Bool
  | [], _ => true
  | _ :: _, [] => false
  | a :: as, b :: bs => a == b && isPrefixOfB as bs

/-- Models rust str::split_once: split at the first occurrence of a character. -/
def splitOnce (c : Char) : Str → Option (Str × Str)
  | [] => none
  | x :: xs =>
    if x = c then some ([], xs)
    else (splitOnce c xs).map (fun p => (x :: p.1, p.2))

/-- Index of the first occurrence of a pattern as a contiguous substring. -/
def findSubstrIdx (pat : Str) : Str → Option Nat
  | [] => if isPrefixOfB pat [] then some 0 else none
  | x :: xs =>
    if isPrefixOfB pat (x :: xs) then some 0
    else (findSubstrIdx pat xs).map (· + 1)

/-- Models rust str::contains for substring patterns. -/
def containsSubstr (s pat : Str) : Bool := (findSubstrIdx pat s).isSome

/-- Models str::split on a separator character (keeps empty pieces). -/
def splitOn (c : Char) : Str → List Str
  | [] => [[]]
  | x :: xs =>
    if x = c then [] :: splitOn c xs
    else match splitOn c xs with
      | [] => [[x]]
      | p :: ps => (x :: p) :: ps

/-- First value stored under a key in an association list (HashMap::get). -/
def assocGet (k : Str) : List (Str × Str) → Option Str
  | [] => none
  | (k', v) :: rest => if k' = k then some v else assocGet k rest

/-- HashMap::insert on the association-list model: replace in place or append. -/
def assocInsert (k v : Str) : List (Str × Str) → List (Str × Str)
  | [] => [(k, v)]
  | (k', v') :: rest =>
    if k' = k then (k, v) :: rest else (k', v') :: assocInsert k v rest

/-- Generic lookup membership used below for digest allow-lists (Vec::contains). -/
def listMem (x : Str) (l : List Str) : Bool := l.contains x

/-- Models u8::to_ascii_lowercase lifted to characters. -/
def asciiLower (c : Char) : Char :=
  if 'A' ≤ c ∧ c ≤ 'Z' then Char.ofNat (c.toNat + 32) else c

/-- Hex digit value of an ASCII character, if any. -/
def hexVal (c : Char) : Option Nat :=
  if '0' ≤ c ∧ c ≤ '9' then some (c.toNat - '0'.toNat)
  else if 'a' ≤ c ∧ c ≤ 'f' then some (c.toNat - 'a'.toNat + 10)
  else if 'A' ≤ c ∧ c ≤ 'F' then some (c.toNat - 'A'.toNat + 10)
  else none

/-- Decoded byte rendered as a character, mirroring utf8-lossy output for the
ASCII range (multi-byte sequences are outside the claims' inputs). -/
def byteChar (n : Nat) : Char :=
  if n < 128 then Char.ofNat n else '�'

/-- Models percent_encoding::percent_decode followed by decode_utf8_lossy,
restricted to ASCII payloads. -/
def percentDecode : Str → Str
  | [] => []
  | '%' :: h₁ :: h₂ :: rest =>
    match hexVal h₁, hexVal h₂ with
    | some a, some b => byteChar (a * 16 + b) :: percentDecode rest
    | _, _ => '%' :: percentDecode (h₁ :: h₂ :: rest)
  | c :: rest => c :: percentDecode rest

/-- Models form_urlencoded component decoding: plus-as-space then percent
decoding. -/
def formDecode (s : Str) : Str :=
  percentDecode (s.map (fun c => if c = '+' then ' ' else c))

/-- Models url::form_urlencoded::parse over a fragment/query string. -/
def parseFormUrlencoded (s : Str) : List (Str × Str) :=
  (splitOn '&' s).filterMap fun part =>
    if part = [] then none
    else some (match splitOnce '=' part with
      | some (k, v) => (formDecode k, formDecode v)
      | none => (formDecode part, []))

/-- Helper for canonicalize_name: lowercase and collapse each maximal run of
the characters in the class [-_.] to a single dash. -/
def canonGo : Bool → Str → Str
  | _, [] => []
  | prevSep, c :: rest =>
    if c = '-' ∨ c = '_' ∨ c = '.' then
      if prevSep then canonGo true rest else '-' :: canonGo true rest
    else asciiLower c :: canonGo false rest

/-- Models evaluator.rs canonicalize_name: to_lowercase then replace every
maximal run matching the regex class [-_.]+ by a dash. -/
def canonicalize_name (name : Str) : Str := canonGo false name

/-- Splits a string at its last dot: returns (part before the last dot, part
from the last dot on), or none when no dot occurs.  This captures rfind
followed by slicing at the found byte index. -/
def splitLastDot : Str → Option (Str × Str)
  | [] => none
  | c :: rest =>
    match splitLastDot rest with
    | some (b, e) => some (c :: b, e)
    | none => if c = '.' then some ([], '.' :: rest) else none

/-- Models evaluator.rs splitext: split at the last dot, and when the part
before that dot ends in ".tar" move the split four characters left. -/
def splitext (filename : Str) : Str × Str :=
  match splitLastDot filename with
  | none => (filename, [])
  | some (basename, ext) =>
    if ".tar".toList.isSuffixOf basename then
      (filename.take (basename.length - 4), filename.drop (basename.length - 4))
    else (basename, ext)

/-- Error kinds from error.rs. -/
inductive ErrorKind where
  | UrlError
  | UnpackError
  | HashError
  | IOError
  | CollectError
  | ValueError
  | LinkMismatchError
deriving DecidableEq

/-- Structured error from error.rs. -/
structure Error where
  kind : ErrorKind
  message : Str
deriving DecidableEq

/-- Rust Result with the success payload first. -/
inductive RResult (α : Type) where
  | ok (a : α)
  | err (e : Error)
deriving DecidableEq

/-- Discriminator for the error case. -/
def RResult.isErr : RResult α → Bool
  | .ok _ => false
  | .err _ => true

/-- Whether the result is a rejection carrying the given error kind. -/
def RResult.isErrKind (k : ErrorKind) : RResult α → Bool
  | .ok _ => false
  | .err e => e.kind = k

/-- Userinfo/host/port block of a parsed URL with an authority. -/
structure UrlAuthority where
  username : Str
  password : Option Str
  host : Str
  port : Option Nat
deriving DecidableEq

/-- Structural view of a parsed absolute URL (the url crate's Url), carrying
the components the embedded code reads and writes. -/
structure Url where
  scheme : Str
  authority : Option UrlAuthority
  path : Str
  query : Option Str
  fragment : Option Str
deriving DecidableEq

/-- Serialization of the userinfo block, empty when there are no credentials. -/
def serializeUserinfo (a : UrlAuthority) : Str :=
  if a.username = [] ∧ a.password = none then []
  else a.username ++ (match a.password with
    | some p => ':' :: p
    | none => []) ++ ['@']

/-- Models Url::to_string on the structural view. -/
def serializeUrl (u : Url) : Str :=
  u.scheme ++ ":".toList ++
    (match u.authority with
     | some a =>
       "//".toList ++ serializeUserinfo a ++ a.host ++
         (match a.port with
          | some p => ':' :: (toString p).toList
          | none => [])
     | none => []) ++
    u.path ++
    (match u.query with
     | some q => '?' :: q
     | none => []) ++
    (match u.fragment with
     | some f => '#' :: f
     | none => [])

/-- PEP 658 metadata marker from link.rs (bool or hash mapping). -/
inductive DistMetadata where
  | Enabled (enabled : Bool)
  | Hashes (hashes : List (Str × Str))
deriving DecidableEq

/-- The Link value object from link.rs. -/
structure Link where
  url : Str
  normalized : Str
  parsed : Url
  vcs : Option Str
  comes_from : Option Str
  yank_reason : Option Str
  requires_python : Option Str
  hashes_map : Option (List (Str × Str))
  dist_metadata : Option DistMetadata
deriving DecidableEq

/-- VCS_SCHEMES from link.rs. -/
def VCS_SCHEMES : List Str := ["git".toList, "hg".toList, "svn".toList, "bzr".toList]

/-- SUPPORTED_HASHES from link.rs. -/
def SUPPORTED_HASHES : List Str :=
  ["sha1".toList, "sha224".toList, "sha384".toList, "sha256".toList,
   "sha512".toList, "md5".toList]

/-- First index at or past the start where the character occurs, subject to the
constraint that at least one character must follow it (the trailing .+ of the
regex); mirrors the lazy search for the colon capture of SSH_GIT_URL. -/
def findColonIdx (s : Str) (lo : Nat) : Option Nat :=
  match (s.drop lo).findIdx? (· = ':') with
  | none => none
  | some k => if lo + k + 1 < s.length then some (lo + k) else none

/-- First some in a list of options. -/
def firstSome : List (Option α) → Option α
  | [] => none
  | o :: rest => o <|> firstSome rest

/-- Models the replacement Regex.replace(s, r"(^.+?://(?:.+?@)?.+?)(:)(.+$)",
"$1/$3") from link.rs, following the engine's lazy/greedy backtracking order:
the earliest "://" preceded by at least one character fixes the scheme part;
then each "@" (earliest first, at least one character past the scheme part) is
tried with the first colon at least two characters past it; failing all of
those, the optional userinfo group is dropped and the first colon at least one
character past the scheme part is used; the matched colon becomes a slash.
When nothing matches the string is unchanged. -/
def sshGitReplace (s : Str) : Str :=
  match (findSubstrIdx "://".toList (s.drop 1)).map (· + 1) with
  | none => s
  | some j =>
    let after := j + 3
    let atCands := (s.enum.filter (fun p => p.2 = '@' && after + 1 ≤ p.1)).map (·.1)
    match firstSome (atCands.map (fun a => findColonIdx s (a + 2))) <|>
        findColonIdx s (after + 1) with
    | none => s
    | some c => s.take c ++ ['/'] ++ s.drop (c + 1)

/-- Models add_ssh_scheme_to_git_uri from link.rs. -/
def add_ssh_scheme_to_git_uri (uri : Str) : Str :=
  if containsSubstr uri "://".toList then uri
  else sshGitReplace ("ssh://".toList ++ uri)

/-- The (normalized, vcs) computation at the start of Link::new: strip a
leading vcs+ prefix and clean the remainder. -/
def linkNormalizeVcs (url : Str) : Str × Option Str :=
  if VCS_SCHEMES.any (fun s => isPrefixOfB (s ++ ['+']) url) then
    match splitOnce '+' url with
    | some (vcs, rest) => (add_ssh_scheme_to_git_uri rest, some vcs)
    | none => (url, none)
  else (url, none)

/-- Models Link::new, with the url crate's parser abstracted as an oracle
(none models a parse error). -/
def linkNew (parseUrl : Str → Option Url) (url : Str) (comes_from yank_reason
    requires_python : Option Str) (hashes : Option (List (Str × Str)))
    (dist_metadata : Option DistMetadata) : RResult Link :=
  let nv := linkNormalizeVcs url
  match parseUrl nv.1 with
  | none => .err ⟨.UrlError, "Invalid URL: ".toList ++ nv.1⟩
  | some parsed =>
    .ok { url := url, normalized := nv.1, parsed := parsed, vcs := nv.2,
          comes_from := comes_from, yank_reason := yank_reason,
          requires_python := requires_python, hashes_map := hashes,
          dist_metadata := dist_metadata }

/-- Last path component in the sense of rust Path::file_name: empty and
current-directory components are dropped and a trailing parent component
yields nothing. -/
def fileNameOf (path : Str) : Str :=
  match ((splitOn '/' path).filter
      (fun c => c ≠ [] ∧ c ≠ ".".toList)).getLast? with
  | some last => if last = "..".toList then [] else last
  | none => []

/-- Models Link::filename: percent-decode the parsed path and take its final
component. -/
def linkFilename (l : Link) : Str := fileNameOf (percentDecode l.parsed.path)

/-- Models Link::is_wheel. -/
def linkIsWheel (l : Link) : Bool := ".whl".toList.isSuffixOf (linkFilename l)

/-- Models Link::hashes: the explicit hashes_map when set, else the supported
hash entries of the form-decoded fragment (collected into a map, so a later
duplicate key overwrites an earlier one), or none when that set is empty. -/
def linkHashes (l : Link) : Option (List (Str × Str)) :=
  match l.hashes_map with
  | some hashes => some hashes
  | none =>
    match l.parsed.fragment with
    | none => none
    | some frag =>
      let hs := ((parseFormUrlencoded frag).filter
          (fun p => SUPPORTED_HASHES.contains p.1)).foldl
          (fun m p => assocInsert p.1 p.2 m) []
      if hs = [] then none else some hs

/-- Models Link::egg: the egg key of the form-decoded fragment. -/
def linkEgg (l : Link) : Option Str :=
  match l.parsed.fragment with
  | none => none
  | some frag => ((parseFormUrlencoded frag).find? (fun p => p.1 = "egg".toList)).map (·.2)

/-- Models the redacted getter of link.rs: without an authority the normalized
url, otherwise the serialization after set_username("***") and
set_password(None). -/
def redacted (l : Link) : Str :=
  match l.parsed.authority with
  | none => l.normalized
  | some a =>
    serializeUrl { l.parsed with
      authority := some { a with username := "***".toList, password := none } }

/-- Replaces the userinfo of a link's parsed view, leaving every other
component alone; used to state redaction independence. -/
def withUserinfo (l : Link) (u : Str) (p : Option Str) : Link :=
  { l with parsed := { l.parsed with
      authority := l.parsed.authority.map
        (fun a => { a with username := u, password := p }) } }

/-- The text standing between the first "//" and the next "@" of a serialized
URL, when any; this is the claim's notion of the userinfo region of the input. -/
def userinfoRegionOf (s : Str) : Option Str :=
  match findSubstrIdx "//".toList s with
  | none => none
  | some i =>
    let rest := s.drop (i + 2)
    (rest.findIdx? (· = '@')).map (fun k => rest.take k)

/-- ARCHIVE_EXTENSIONS from source.rs. -/
def ARCHIVE_EXTENSIONS : List Str :=
  [".zip".toList, ".whl".toList, ".tar.bz2".toList, ".tbz".toList,
   ".tar.xz".toList, ".txz".toList, ".tlz".toList, ".tar.lz".toList,
   ".tar.lzma".toList, ".tar.gz".toList]

/-- Models rust Path::extension: the part of the file name after its last dot,
provided the stem before that dot is non-empty. -/
def pathExtension (name : Str) : Option Str :=
  match splitLastDot (fileNameOf name) with
  | none => none
  | some (stem, dotExt) => if stem = [] then none else some (dotExt.drop 1)

/-- Models is_archive_file from source.rs: the ascii-lowercased
Path::extension must occur in ARCHIVE_EXTENSIONS. -/
def is_archive_file (name : Str) : Bool :=
  match pathExtension name with
  | none => false
  | some ext => ARCHIVE_EXTENSIONS.contains (ext.map asciiLower)

/-- The NotHTTP collect error produced by ensure_index_response. -/
def notHttpError : Error :=
  ⟨.CollectError,
   ("NotHTTP: the file looks like an archive but its content-type " ++
    "cannot be checked by a HEAD request.").toList⟩

/-- Scheme guard of ensure_index_response from source.rs. -/
def ensureIndexSchemeCheck (source : Link) : Option Error :=
  if source.parsed.scheme ≠ "http".toList ∧ source.parsed.scheme ≠ "https".toList then
    some notHttpError
  else none

/-- The archive pre-check stage at the top of get_pypi_response: the returned
flag records whether a HEAD request is reached.  An error is produced exactly
when the filename looks like an archive and the scheme is not http(s). -/
def getPypiPreCheck (source : Link) : Option Error × Bool :=
  if is_archive_file (linkFilename source) then
    match ensureIndexSchemeCheck source with
    | some e => (some e, false)
    | none => (none, true)
  else (none, false)

/-- An anchor element as the HTML collector sees it: the attributes
parse_links_from_html reads, plus the PEP 658 attribute name the spec
mentions. -/
structure Anchor where
  href : Option Str
  dataYanked : Option Str
  dataRequiresPython : Option Str
  dataMetadata : Option Str
  dataDistInfoMetadata : Option Str
deriving DecidableEq

/-- The dist_metadata computation applied to an anchor's data-metadata
attribute value in parse_links_from_html. -/
def distMetadataOfAttr (s : Str) : DistMetadata :=
  match splitOnce '=' s with
  | some (name, value) => .Hashes [(name, value)]
  | none => .Enabled true

/-- Models the per-anchor body of parse_links_from_html from source.rs, with
the url crate's join and parse abstracted as oracles; none models the
filter_map dropping the anchor. -/
def anchorToLink (joinUrl : Str → Str → Option Str) (parseUrl : Str → Option Url)
    (fromUrl : Str) (el : Anchor) : Option Link :=
  el.href.bind fun href =>
    (joinUrl fromUrl href).bind fun url =>
      match linkNew parseUrl url (some fromUrl) el.dataYanked
          el.dataRequiresPython none (el.dataMetadata.map distMetadataOfAttr) with
      | .ok l => some l
      | .err _ => none

/-- Models parse_links_from_html over the document's anchor list. -/
def parse_links_from_html (joinUrl : Str → Str → Option Str)
    (parseUrl : Str → Option Url) (anchors : List Anchor) (fromUrl : Str) :
    List Link :=
  anchors.filterMap (anchorToLink joinUrl parseUrl fromUrl)

/-- Operators of the pep440_rs crate. -/
inductive Operator where
  | Equal
  | EqualStar
  | ExactEqual
  | NotEqual
  | NotEqualStar
  | TildeEqual
  | LessThan
  | LessThanEqual
  | GreaterThan
  | GreaterThanEqual
deriving DecidableEq

/-- Abstract view of a pep440_rs Version: the embedded code only consults its
prerelease flag and its display form. -/
structure Version where
  anyPrerelease : Bool
  display : Str
deriving DecidableEq

/-- One specifier clause, exposing the operator and right-hand version the
embedded code inspects. -/
structure VersionSpecifier where
  op : Operator
  version : Version
deriving DecidableEq

/-- Abstract view of a pep440_rs VersionSpecifiers value: its clauses, its
(external) containment test and its display form. -/
structure VersionSpecifiers where
  clauses : List VersionSpecifier
  containsB : Version → Bool
  display : Str

/-- The version-or-url payload of a pep508_rs Requirement. -/
inductive VersionOrUrl where
  | VersionSpecifier (spec : VersionSpecifiers)
  | Url (url : Str)

/-- Abstract view of a pep508_rs Requirement. -/
structure Requirement where
  name : Str
  version_or_url : Option VersionOrUrl

/-- The Package record produced by the evaluator. -/
structure Package where
  name : Str
  version : Option Version
  link : Link
deriving DecidableEq

/-- Wheel tag triple from py.rs. -/
structure Tag where
  interpreter : Str
  abi : Str
  platform : Str
deriving DecidableEq

/-- TargetPython from py.rs.  The source file defines only supported_tags; the
primary-version field consulted by check_requires_python is not part of the
sources under src/.  Modelled from the spec: the requires-python check must
admit the target's primary interpreter version, carried here directly as an
abstract Version. -/
structure TargetPython where
  supported_tags : List Tag
  pyVer : Version
deriving DecidableEq

/-- Parsed wheel filename from the pep_427 crate, with the fields the
evaluator reads. -/
structure WheelName where
  distribution : Str
  version : Version
  tags : List Tag
deriving DecidableEq

/-- Modelled from the spec: TargetPython::is_compatible is referenced by the
evaluator but not defined under src/; a wheel is compatible iff one of its
tags occurs among the supported tags. -/
def isCompatible (tp : TargetPython) (wn : WheelName) : Bool :=
  wn.tags.any (fun t => tp.supported_tags.contains t)

/-- FormatControl from evaluator.rs. -/
structure FormatControl where
  only_binary : Bool
  no_binary : Bool
deriving DecidableEq

/-- Models FormatControl::check_format. -/
def checkFormat (fc : FormatControl) (link : Link) (name : Str) :
    RResult Unit :=
  if fc.only_binary ∧ ¬ linkIsWheel link then
    .err ⟨.LinkMismatchError, "Only binaries are allowed for ".toList ++ name⟩
  else if fc.no_binary ∧ linkIsWheel link then
    .err ⟨.LinkMismatchError, "Binaries are not allowed for ".toList ++ name⟩
  else .ok ()

/-- The evaluator configuration from evaluator.rs (the session is carried
separately as an oracle). -/
structure Evaluator where
  package_name : Str
  format_control : FormatControl
  target_python : TargetPython
  ignore_compatibility : Bool
  allow_yanked : Bool
  hashes : List (Str × List Str)

/-- A streamed HTTP response body: its chunks, and an optional read error the
chunk loop runs into after them. -/
structure Resp where
  chunks : List (List Nat)
  readErr : Option Str

/-- Oracles for the external collaborators the evaluator calls into: the HTTP
session, the digest cores, and the wheel-name/version/specifier parsers.  An
err payload carries the collaborator's error display. -/
structure Ext where
  send : Str → Except Str Resp
  digestHex : Str → List Nat → Str
  wheelParse : Str → Except Str WheelName
  versionParse : Str → Except Str Version
  specParse : Str → Except Str VersionSpecifiers

/-- The six algorithm names accepted by Hasher::new in hash.rs. -/
def hasherSupported (algo : Str) : Bool :=
  algo = "md5".toList ∨ algo = "sha1".toList ∨ algo = "sha224".toList ∨
    algo = "sha256".toList ∨ algo = "sha384".toList ∨ algo = "sha512".toList

/-- Models Evaluator::get_hash: GET the normalized url, stream the body
through the named hasher, store the digest into hashes_map, and return it with
the updated link.  Send failures surface as CollectError (the reqwest From
impl), read failures as IOError (the io From impl), an unsupported algorithm
as LinkMismatchError. -/
def getHash (ext : Ext) (link : Link) (hashName : Str) :
    RResult (Str × Link) :=
  match ext.send link.normalized with
  | .error m => .err ⟨.CollectError, m⟩
  | .ok resp =>
    if hasherSupported hashName then
      match resp.readErr with
      | some m => .err ⟨.IOError, m⟩
      | none =>
        let digest := ext.digestHex hashName resp.chunks.flatten
        let hashes := assocInsert hashName digest (link.hashes_map.getD [])
        .ok (digest, { link with hashes_map := some hashes })
    else .err ⟨.LinkMismatchError, "Unsupported hash algo ".toList ++ hashName⟩

/-- Models hash_mismatch from evaluator.rs. -/
def hashMismatchErr (hashName : Str) (expected : List Str) (actual : Str) :
    Error :=
  ⟨.LinkMismatchError,
   "Hash mismatch for ".toList ++ hashName ++ ": expected ".toList ++
     (List.intercalate "/".toList expected) ++ ", actual ".toList ++ actual⟩

/-- The for loop of Evaluator::check_hash over the configured hashes: the
first configured algorithm that is present among the link hashes with a digest
outside its allow-list produces the mismatch error. -/
def hashLoop (cfg : List (Str × List Str)) (linkHs : List (Str × Str)) :
    Option Error :=
  match cfg with
  | [] => none
  | (hashName, expected) :: rest =>
    match assocGet hashName linkHs with
    | some actual =>
      if listMem actual expected then hashLoop rest linkHs
      else some (hashMismatchErr hashName expected actual)
    | none => hashLoop rest linkHs

/-- The page-comparison stage of check_hash. -/
def pageMismatch (ev : Evaluator) (link : Link) : Option Error :=
  match linkHashes link with
  | some linkHs => hashLoop ev.hashes linkHs
  | none => none

/-- Models Evaluator::check_hash.  The boolean records whether the GET of
get_hash is reached.  With an empty configuration the check is skipped; a
mismatch between configured and link-provided digests errors before any GET;
in every other case the first configured algorithm is streamed and compared. -/
def checkHash (ext : Ext) (ev : Evaluator) (link : Link) :
    RResult Link × Bool :=
  match ev.hashes with
  | [] => (.ok link, false)
  | (hashName, expected) :: _ =>
    match pageMismatch ev link with
    | some e => (.err e, false)
    | none =>
      match getHash ext link hashName with
      | .err e => (.err e, true)
      | .ok (actual, link') =>
        if listMem actual expected then (.ok link', true)
        else (.err (hashMismatchErr hashName expected actual), true)

/-- Models check_yanked from evaluator.rs. -/
def checkYanked (ev : Evaluator) (link : Link) : RResult Unit :=
  match link.yank_reason with
  | some reason =>
    if ¬ ev.allow_yanked then
      .err ⟨.LinkMismatchError, "Yanked due to ".toList ++ reason⟩
    else .ok ()
  | none => .ok ()

/-- Models check_requires_python from evaluator.rs. -/
def checkRequiresPython (ext : Ext) (ev : Evaluator) (link : Link) :
    RResult Unit :=
  match link.requires_python with
  | some rp =>
    if ¬ ev.ignore_compatibility then
      match ext.specParse rp with
      | .error e =>
        .err ⟨.LinkMismatchError,
              "Invalid requires-python specifier: ".toList ++ e⟩
      | .ok spec =>
        if ¬ spec.containsB ev.target_python.pyVer then
          .err ⟨.LinkMismatchError,
                ("The target python version(".toList ++
                 ev.target_python.pyVer.display ++ ") doesn't ".toList ++
                 "match the requires-python specifier ".toList ++ spec.display)⟩
        else .ok ()
    else .ok ()
  | none => .ok ()

/-- Models parse_version_from_egg_info: walk the egg-info string, and at the
first dash or underscore whose preceding prefix canonicalizes to the package
name return the remainder. -/
def pvfei (canonical : Str) : Str → Str → Option Str
  | _, [] => none
  | pre, c :: rest =>
    if canonicalize_name pre = canonical ∧ (c = '-' ∨ c = '_') then some rest
    else pvfei canonical (pre ++ [c]) rest

/-- Entry point matching parse_version_from_egg_info's signature. -/
def parse_version_from_egg_info (eggInfo : Str) (canonical : Str) :
    Option Str :=
  pvfei canonical [] eggInfo

/-- The non-wheel branch of evaluate_link that determines the egg-info
basename. -/
def eggInfoOf (link : Link) : RResult Str :=
  match linkEgg link with
  | some egg => .ok (egg.takeWhile (· ≠ '['))
  | none =>
    let filename := linkFilename link
    let se := splitext filename
    if ¬ ARCHIVE_EXTENSIONS.contains se.2 then
      .err ⟨.LinkMismatchError,
            "Unsupported file format: ".toList ++ link.normalized⟩
    else .ok se.1

/-- The name/version extraction step of evaluate_link. -/
def extractVersion (ext : Ext) (ev : Evaluator) (link : Link) :
    RResult Version :=
  if linkIsWheel link then
    match ext.wheelParse (linkFilename link) with
    | .error e => .err ⟨.LinkMismatchError, e⟩
    | .ok wheelName =>
      if canonicalize_name ev.package_name ≠ wheelName.distribution then
        .err ⟨.LinkMismatchError,
              ("The package name ".toList ++ ev.package_name ++
               " does not match the name ".toList ++ wheelName.distribution ++
               " in the link".toList)⟩
      else if ¬ ev.ignore_compatibility ∧
          ¬ isCompatible ev.target_python wheelName then
        .err ⟨.LinkMismatchError,
              "The wheel tags are not compatible with this Python version".toList⟩
      else .ok wheelName.version
  else
    match eggInfoOf link with
    | .err e => .err e
    | .ok eggInfo =>
      match parse_version_from_egg_info eggInfo
          (canonicalize_name ev.package_name) with
      | none =>
        .err ⟨.LinkMismatchError,
              "Missing version in the filename ".toList ++ eggInfo⟩
      | some ver =>
        match ext.versionParse ver with
        | .error e => .err ⟨.LinkMismatchError, "Invalid version: ".toList ++ e⟩
        | .ok version => .ok version

/-- Models Evaluator::evaluate_link.  The boolean mirrors the one of
checkHash: whether a GET was issued during hash verification. -/
def evaluateLink (ext : Ext) (ev : Evaluator) (link : Link) :
    RResult Package × Bool :=
  match checkFormat ev.format_control link ev.package_name with
  | .err e => (.err e, false)
  | .ok _ =>
    match checkYanked ev link with
    | .err e => (.err e, false)
    | .ok _ =>
      match checkRequiresPython ext ev link with
      | .err e => (.err e, false)
      | .ok _ =>
        match extractVersion ext ev link with
        | .err e => (.err e, false)
        | .ok version =>
          match checkHash ext ev link with
          | (.err e, g) => (.err e, g)
          | (.ok link', g) =>
            (.ok { name := ev.package_name, version := some version,
                   link := link' }, g)

/-- The operator set whose clauses auto-admit prereleases in
evaluate_package. -/
def autoAdmitOp : Operator → Bool
  | .Equal => true
  | .ExactEqual => true
  | .GreaterThanEqual => true
  | .LessThanEqual => true
  | .TildeEqual => true
  | _ => false

/-- The default allow_prerelease computed by evaluate_package: some clause
uses an auto-admitting operator and carries a prerelease right-hand version. -/
def specAutoAllows (spec : VersionSpecifiers) : Bool :=
  spec.clauses.any (fun s => autoAdmitOp s.op && s.version.anyPrerelease)

/-- Models evaluate_package from evaluator.rs. -/
def evaluate_package (package : Package) (requirement : Requirement)
    (allow_prerelease : Option Bool) : RResult Package :=
  if canonicalize_name requirement.name ≠ canonicalize_name package.name then
    .err ⟨.LinkMismatchError,
          ("Package name mismatch: expected ".toList ++ requirement.name ++
           ", actual ".toList ++ package.name ++ ", skipping".toList)⟩
  else
    match package.version with
    | some version =>
      match requirement.version_or_url with
      | some (.VersionSpecifier spec) =>
        if ¬ spec.containsB version then
          .err ⟨.LinkMismatchError,
                ("Version mismatch: expected ".toList ++ spec.display ++
                 ", actual ".toList ++ version.display ++ ", skipping".toList)⟩
        else
          let allow := allow_prerelease.getD (specAutoAllows spec)
          if version.anyPrerelease && !allow then
            .err ⟨.LinkMismatchError,
                  ("Prerelease version not permitted: expected ".toList ++
                   spec.display ++ ", actual ".toList ++ version.display ++
                   ", skipping".toList)⟩
          else .ok package
      | _ => .ok package
    | none => .ok package

/-- Equality test of the PartialEq impl for Link in link.rs: it compares only
the normalized url, requires_python and yank_reason. -/
def linkBEq (a b : Link) : Bool :=
  a.normalized == b.normalized && a.requires_python == b.requires_python &&
    a.yank_reason == b.yank_reason

/-- The tuple fed to the hasher by the Hash impl for Link in link.rs. -/
def hashTuple (l : Link) : Str × Option Str × Option Str :=
  (l.normalized, l.requires_python, l.yank_reason)

/-! Concrete inputs used by the witnesses and counterexamples below. -/

/-- The py3-none-any wheel tag. -/
def tagPy3 : Tag := ⟨"py3".toList, "none".toList, "any".toList⟩

/-- A final version 1.0. -/
def ver10 : Version := ⟨false, "1.0".toList⟩

/-- A prerelease version 1.0a1. -/
def verPre : Version := ⟨true, "1.0a1".toList⟩

/-- A target interpreter version. -/
def pyVer310 : Version := ⟨false, "3.10".toList⟩

/-- A target runtime supporting the py3-none-any tag. -/
def tpW : TargetPython := ⟨[tagPy3], pyVer310⟩

/-- Parsed view of an sdist url on an https host. -/
def urlC1 : Url :=
  ⟨"https".toList, some ⟨[], none, "files".toList, none⟩,
   "/foo-1.0.tar.gz".toList, none, none⟩

/-- A link that already carries a sha256 digest in its hashes_map. -/
def linkC1 : Link :=
  { url := "https://files/foo-1.0.tar.gz".toList,
    normalized := "https://files/foo-1.0.tar.gz".toList,
    parsed := urlC1, vcs := none, comes_from := none, yank_reason := none,
    requires_python := none,
    hashes_map := some [("sha256".toList, "aa".toList)], dist_metadata := none }

/-- An evaluator configured to require sha256 in the aa allow-list. -/
def evC1 : Evaluator :=
  ⟨"foo".toList, ⟨false, false⟩, tpW, true, true,
   [("sha256".toList, ["aa".toList])]⟩

/-- A session oracle whose streamed body digests to aa. -/
def extOkC1 : Ext :=
  ⟨fun _ => .ok ⟨[[104, 105]], none⟩, fun _ _ => "aa".toList,
   fun _ => .error [], fun _ => .error [], fun _ => .error []⟩

/-- A session oracle whose streamed body digests to cc. -/
def extBadC1 : Ext :=
  ⟨fun _ => .ok ⟨[[104, 105]], none⟩, fun _ _ => "cc".toList,
   fun _ => .error [], fun _ => .error [], fun _ => .error []⟩

/-- Parsed view of a wheel url. -/
def urlW : Url :=
  ⟨"https".toList, some ⟨[], none, "files".toList, none⟩,
   "/foo-1.0-py3-none-any.whl".toList, none, none⟩

/-- A plain wheel link with no metadata. -/
def linkW : Link :=
  { url := "https://files/foo-1.0-py3-none-any.whl".toList,
    normalized := "https://files/foo-1.0-py3-none-any.whl".toList,
    parsed := urlW, vcs := none, comes_from := none, yank_reason := none,
    requires_python := none, hashes_map := none, dist_metadata := none }

/-- An evaluator with no hash configuration accepting the foo wheel. -/
def evW : Evaluator :=
  ⟨"foo".toList, ⟨false, false⟩, tpW, true, false, []⟩

/-- The parsed wheel name of linkW. -/
def wnW : WheelName := ⟨"foo".toList, ver10, [tagPy3]⟩

/-- Oracles for the evaluate_link witness run: no network traffic is needed
because the hash configuration is empty. -/
def extW : Ext :=
  ⟨fun _ => .error "no network".toList, fun _ _ => [],
   fun _ => .ok wnW, fun _ => .error [], fun _ => .error []⟩

/-- The package the witness run must produce. -/
def pkgW : Package := ⟨"foo".toList, some ver10, linkW⟩

/-- Parsed view of an archive-named url on a non-http scheme. -/
def urlC3 : Url :=
  ⟨"ftp".toList, some ⟨[], none, "files".toList, none⟩,
   "/foo-1.0.zip".toList, none, none⟩

/-- The failing input of the archive pre-check claim: a zip-named source link
whose scheme is ftp. -/
def linkC3 : Link :=
  { url := "ftp://files/foo-1.0.zip".toList,
    normalized := "ftp://files/foo-1.0.zip".toList,
    parsed := urlC3, vcs := none, comes_from := none, yank_reason := none,
    requires_python := none, hashes_map := none, dist_metadata := none }

/-- An anchor carrying only the PEP 658 data-dist-info-metadata attribute. -/
def anchorC4 : Anchor :=
  ⟨some "foo-1.0.whl".toList, none, none, none, some "sha256=abc".toList⟩

/-- An anchor carrying the data-metadata attribute the parser actually reads. -/
def anchorC4m : Anchor :=
  ⟨some "foo-1.0.whl".toList, none, none, some "sha256=abc".toList, none⟩

/-- Join oracle resolving hrefs against the index page. -/
def joinC4 (base href : Str) : Option Str :=
  if containsSubstr href "://".toList then some href else some (base ++ href)

/-- Parse oracle for the collector inputs. -/
def parseUrlC4 (_s : Str) : Option Url :=
  some ⟨"https".toList, some ⟨[], none, "index".toList, none⟩,
        "/foo-1.0.whl".toList, none, none⟩

/-- The link the collector produces from anchorC4. -/
def linkC4 : Link :=
  { url := "https://index/foo-1.0.whl".toList,
    normalized := "https://index/foo-1.0.whl".toList,
    parsed := (parseUrlC4 []).get rfl, vcs := none,
    comes_from := some "https://index/".toList, yank_reason := none,
    requires_python := none, hashes_map := none, dist_metadata := none }

/-- The link the collector produces from anchorC4m. -/
def linkC4m : Link :=
  { linkC4 with
    dist_metadata := some (.Hashes [("sha256".toList, "abc".toList)]) }

/-- A specifier admitting everything, with a single non-prerelease clause. -/
def specNoPre : VersionSpecifiers :=
  ⟨[⟨.GreaterThanEqual, ver10⟩], fun _ => true, ">=1.0".toList⟩

/-- A requirement on foo carrying specNoPre. -/
def reqC6 : Requirement := ⟨"foo".toList, some (.VersionSpecifier specNoPre)⟩

/-- A prerelease package named foo. -/
def pkgC6 : Package := ⟨"foo".toList, some verPre, linkW⟩

/-- A requirement whose name canonicalizes to foo. -/
def reqC10 : Requirement := ⟨"Foo".toList, some (.VersionSpecifier specNoPre)⟩

/-- A versionless package named foo. -/
def pkgC10 : Package := ⟨"foo".toList, none, linkW⟩

/-- One of a pair of links equal under the PartialEq triple. -/
def linkA7 : Link :=
  { url := "git+https://e/x".toList, normalized := "https://e/x".toList,
    parsed := ⟨"https".toList, some ⟨[], none, "e".toList, none⟩, "/x".toList,
               none, none⟩,
    vcs := some "git".toList, comes_from := some "https://index/".toList,
    yank_reason := none, requires_python := some ">=3.8".toList,
    hashes_map := some [("sha256".toList, "aa".toList)],
    dist_metadata := some (.Enabled true) }

/-- The other of the pair: same triple, different url, vcs, comes_from,
hashes_map and dist_metadata. -/
def linkB7 : Link :=
  { url := "https://e/x".toList, normalized := "https://e/x".toList,
    parsed := ⟨"https".toList, some ⟨[], none, "e".toList, none⟩, "/x".toList,
               none, none⟩,
    vcs := none, comes_from := none,
    yank_reason := none, requires_python := some ">=3.8".toList,
    hashes_map := none, dist_metadata := none }

/-- Parsed view of a credential-bearing url whose username equals the first
host label. -/
def urlC8 : Url :=
  ⟨"https".toList, some ⟨"example".toList, none, "example.com".toList, none⟩,
   "/".toList, none, none⟩

/-- The redaction counterexample link. -/
def linkC8 : Link :=
  { url := "https://example@example.com/".toList,
    normalized := "https://example@example.com/".toList,
    parsed := urlC8, vcs := none, comes_from := none, yank_reason := none,
    requires_python := none, hashes_map := none, dist_metadata := none }

/-! Helper lemmas. -/

theorem isPrefixOfB_append_self (a t : Str) : isPrefixOfB a (a ++ t) = true := by
  induction a with
  | nil => rfl
  | cons c cs ih => simp [isPrefixOfB, ih]

theorem noDot_splitLastDot (s : Str) (h : ¬ '.' ∈ s) : splitLastDot s = none := by
  induction s with
  | nil => rfl
  | cons c rest ih =>
    have hc : c ≠ '.' := fun hq => h (hq ▸ List.mem_cons_self c rest)
    have hr : ¬ '.' ∈ rest := fun hq => h (List.mem_cons_of_mem c hq)
    simp [splitLastDot, ih hr, hc]

theorem splitLastDot_none_noDot (s : Str) (h : splitLastDot s = none) :
    ¬ '.' ∈ s := by
  induction s with
  | nil => simp
  | cons c rest ih =>
    rw [splitLastDot] at h
    cases hr : splitLastDot rest with
    | some p => rw [hr] at h; simp at h
    | none =>
      rw [hr] at h
      by_cases hc : c = '.'
      · rw [if_pos hc] at h; simp at h
      · rw [if_neg hc] at h
        intro hmem
        rcases List.mem_cons.mp hmem with hq | hq
        · exact hc hq.symm
        · exact ih hr hq

theorem splitLastDot_append_dot (l x : Str) (h : ¬ '.' ∈ x) :
    splitLastDot (l ++ '.' :: x) = some (l, '.' :: x) := by
  induction l with
  | nil => simp [splitLastDot, noDot_splitLastDot x h]
  | cons c cs ih => simp [splitLastDot, ih]

theorem splitLastDot_eq_append (s b e : Str) (h : splitLastDot s = some (b, e)) :
    s = b ++ e := by
  induction s generalizing b e with
  | nil => simp [splitLastDot] at h
  | cons c rest ih =>
    rw [splitLastDot] at h
    cases hr : splitLastDot rest with
    | some p =>
      rw [hr] at h
      cases h
      simpa using ih p.1 p.2 (by rw [hr])
    | none =>
      rw [hr] at h
      by_cases hc : c = '.'
      · rw [if_pos hc] at h
        cases h
        simp [hc]
      · rw [if_neg hc] at h
        cases h

theorem splitLastDot_ext_shape (s b e : Str)
    (h : splitLastDot s = some (b, e)) :
    ∃ e', e = '.' :: e' ∧ ¬ '.' ∈ e' := by
  induction s generalizing b e with
  | nil => simp [splitLastDot] at h
  | cons c rest ih =>
    rw [splitLastDot] at h
    cases hr : splitLastDot rest with
    | some p =>
      rw [hr] at h
      cases h
      exact ih p.1 p.2 (by rw [hr])
    | none =>
      rw [hr] at h
      by_cases hc : c = '.'
      · rw [if_pos hc] at h
        cases h
        exact ⟨rest, rfl, splitLastDot_none_noDot rest hr⟩
      · rw [if_neg hc] at h
        cases h

theorem asciiLower_ne_dot (c : Char) (h : c ≠ '.') : asciiLower c ≠ '.' := by
  unfold asciiLower
  split
  · next hr =>
    have h1 : 65 ≤ c.toNat := hr.1
    have h2 : c.toNat ≤ 90 := hr.2
    have hv : (c.toNat + 32).isValidChar := by
      left
      omega
    have hv46 : (46 : Nat).isValidChar := by
      left
      omega
    intro hq
    have hx := congrArg Char.toNat hq
    simp only [Char.ofNat, hv46, dif_pos, Char.ofNatAux, Char.toNat,
      UInt32.toNat, BitVec.toNat_ofNatLt] at hx
    have hv' : (c.val.toBitVec.toNat + 32).isValidChar := hv
    rw [dif_pos hv'] at hx
    simp only [BitVec.toNat_ofNatLt] at hx
    simp only [Char.toNat, UInt32.toNat] at h1 h2
    omega
  · exact h

theorem map_asciiLower_ne_dot_cons (l : Str) (h : ¬ '.' ∈ l) (t : Str) :
    l.map asciiLower ≠ '.' :: t := by
  cases l with
  | nil => simp
  | cons c cs =>
    have hc : c ≠ '.' := fun hq => h (hq ▸ List.mem_cons_self c cs)
    simp only [List.map_cons, ne_eq, List.cons.injEq, not_and]
    intro hq
    exact absurd hq (asciiLower_ne_dot c hc)

/-! C5: splitext. -/

/-- C5 counterexample: the claim predicts that a name ending in ".tar.zip"
splits at the last dot with extension ".zip", but splitext moves the split
before the ".tar" for every final extension, not just for the five
double-extension enders. -/
theorem c5_counterexample :
    splitext "a.tar.zip".toList = ("a".toList, ".tar.zip".toList) ∧
      splitext "a.tar.zip".toList ≠ ("a.tar".toList, ".zip".toList) := by
  decide

/-- C5 amended: splitext always rejoins to its input; whenever the part
before the last dot ends in ".tar" — for any dot-free final extension — the
split is taken before the ".tar"; and a dot-free name splits with an empty
extension. -/
theorem c5_splitext_spec :
    (∀ s : Str, (splitext s).1 ++ (splitext s).2 = s) ∧
    (∀ base x : Str, ¬ '.' ∈ x →
      splitext (base ++ ".tar.".toList ++ x) = (base, ".tar.".toList ++ x)) ∧
    (∀ s : Str, ¬ '.' ∈ s → splitext s = (s, [])) ∧
    (∀ base x : Str, ¬ '.' ∈ x →
      ".tar".toList.isSuffixOf base = false →
      splitext (base ++ '.' :: x) = (base, '.' :: x)) := by
  refine ⟨?_, ?_, ?_, ?_⟩
  · intro s
    cases h : splitLastDot s with
    | none => simp [splitext, h]
    | some p =>
      obtain ⟨b, e⟩ := p
      have hs := splitLastDot_eq_append s b e h
      simp only [splitext, h]
      split
      · exact List.take_append_drop _ s
      · exact hs.symm
  · intro base x hx
    have heq : base ++ ".tar.".toList ++ x =
        (base ++ ".tar".toList) ++ ('.' :: x) := by
      simp
    rw [heq]
    have hsuf : ".tar".toList.isSuffixOf (base ++ ".tar".toList) = true := by
      simp [List.isSuffixOf_iff_suffix]
    simp only [splitext, splitLastDot_append_dot (base ++ ".tar".toList) x hx,
      hsuf, if_true]
    have hlen : (base ++ ".tar".toList).length - 4 = base.length := by
      simp
    have heq2 : (base ++ ".tar".toList) ++ ('.' :: x) =
        base ++ (".tar.".toList ++ x) := by
      simp
    rw [hlen, heq2, List.take_left' rfl, List.drop_left' rfl]
  · intro s h
    simp [splitext, noDot_splitLastDot s h]
  · intro base x hx hsuf
    simp only [splitext, splitLastDot_append_dot base x hx, hsuf]
    simp

/-- C5 witness: instantiating the ".tar" branch of the amended statement at
base "a" and extension "zip" reproduces the counterexample input. -/
theorem c5_witness :
    ¬ '.' ∈ "zip".toList ∧
      splitext ("a".toList ++ ".tar.".toList ++ "zip".toList) =
        ("a".toList, ".tar.".toList ++ "zip".toList) :=
  ⟨by decide, c5_splitext_spec.2.1 "a".toList "zip".toList (by decide)⟩

/-! C2: vcs link normalization. -/

theorem linkNormalizeVcs_gitPrefix (t : Str) :
    linkNormalizeVcs ("git+".toList ++ t) =
      (add_ssh_scheme_to_git_uri t, some "git".toList) := rfl

/-- C2 counterexample: for git+ssh://git@host:org/repo the tail already
contains "://", so Link::new keeps it unchanged — the normalized candidate is
ssh://git@host:org/repo, not the claimed ssh://git@host/org/repo. -/
theorem c2_counterexample :
    linkNormalizeVcs "git+ssh://git@host:org/repo".toList =
        ("ssh://git@host:org/repo".toList, some "git".toList) ∧
      "ssh://git@host:org/repo".toList ≠ "ssh://git@host/org/repo".toList := by
  decide

/-- C2 amended: a git+ url whose tail contains "://" yields vcs git and the
tail unchanged as the normalized candidate; the colon-to-slash rewrite
applies only to tails without "://", as in git+git@host:org/repo. -/
theorem c2_vcs_normalization :
    (∀ t : Str, containsSubstr t "://".toList = true →
      linkNormalizeVcs ("git+".toList ++ t) = (t, some "git".toList)) ∧
    linkNormalizeVcs "git+git@host:org/repo".toList =
      ("ssh://git@host/org/repo".toList, some "git".toList) := by
  constructor
  · intro t h
    simp only [linkNormalizeVcs_gitPrefix, add_ssh_scheme_to_git_uri, h,
      if_true]
  · decide

/-- C2 witness: the amended statement applied to the counterexample tail. -/
theorem c2_witness :
    containsSubstr "ssh://git@host:org/repo".toList "://".toList = true ∧
      linkNormalizeVcs ("git+".toList ++ "ssh://git@host:org/repo".toList) =
        ("ssh://git@host:org/repo".toList, some "git".toList) :=
  ⟨by decide, c2_vcs_normalization.1 "ssh://git@host:org/repo".toList (by decide)⟩

/-! C3: the archive pre-check. -/

/-- C3: rust Path::extension yields the dot-free text after the last dot,
while every member of ARCHIVE_EXTENSIONS starts with a dot, so
is_archive_file is constantly false: the claimed NotHTTP rejection (and the
claimed HEAD request on http/https) can never happen.  At the failing input —
an ftp link named foo-1.0.zip — the pre-check neither errors nor issues a
HEAD. -/
theorem c3_is_archive_file_dead :
    (∀ name : Str, is_archive_file name = false) ∧
      getPypiPreCheck linkC3 = (none, false) := by
  constructor
  · intro name
    unfold is_archive_file
    cases h : pathExtension name with
    | none => rfl
    | some ext =>
      show ARCHIVE_EXTENSIONS.contains (ext.map asciiLower) = false
      obtain ⟨stem, dotExt, hsplit, hext⟩ :
          ∃ stem dotExt, splitLastDot (fileNameOf name) = some (stem, dotExt) ∧
            ext = dotExt.drop 1 := by
        unfold pathExtension at h
        cases hs : splitLastDot (fileNameOf name) with
        | none => rw [hs] at h; simp at h
        | some p =>
          obtain ⟨stem0, dot0⟩ := p
          rw [hs] at h
          have h' : (if stem0 = [] then none else some (dot0.drop 1)) =
              some ext := h
          by_cases hstem : stem0 = []
          · rw [if_pos hstem] at h'; simp at h'
          · rw [if_neg hstem] at h'
            exact ⟨stem0, dot0, rfl, (Option.some.inj h').symm⟩
      obtain ⟨e', hsh, hnd⟩ := splitLastDot_ext_shape _ _ _ hsplit
      have hext' : ext = e' := by rw [hext, hsh]; rfl
      rw [hext']
      have hnm : ¬ (e'.map asciiLower) ∈ ARCHIVE_EXTENSIONS := by
        intro hm
        have : ∀ y ∈ ARCHIVE_EXTENSIONS, e'.map asciiLower ≠ y := by
          intro y hy
          fin_cases hy <;> exact map_asciiLower_ne_dot_cons e' hnd _
        exact this _ hm rfl
      simp [List.contains, List.elem_eq_mem, hnm]
  · decide

/-! C7: Link equality and hashing. -/

/-- C7: two Links are equal exactly when their normalized url, requires_python
and yank_reason agree — no other field enters — and the tuple fed to the
hasher is that same triple, so equal Links hash identically. -/
theorem c7_link_eq_hash :
    ∀ a b : Link,
      (linkBEq a b = true ↔
        a.normalized = b.normalized ∧
          a.requires_python = b.requires_python ∧
          a.yank_reason = b.yank_reason) ∧
      (linkBEq a b = true → hashTuple a = hashTuple b) := by
  intro a b
  have hiff : linkBEq a b = true ↔
      a.normalized = b.normalized ∧ a.requires_python = b.requires_python ∧
        a.yank_reason = b.yank_reason := by
    simp [linkBEq, Bool.and_eq_true, beq_iff_eq, and_assoc]
  refine ⟨hiff, fun h => ?_⟩
  obtain ⟨h1, h2, h3⟩ := hiff.mp h
  simp [hashTuple, h1, h2, h3]

/-- C7 witness: two links sharing the triple but differing in raw url, vcs,
comes_from, hashes_map and dist_metadata compare equal and hash alike. -/
theorem c7_witness :
    linkBEq linkA7 linkB7 = true ∧ hashTuple linkA7 = hashTuple linkB7 ∧
      linkA7.url ≠ linkB7.url ∧ linkA7.vcs ≠ linkB7.vcs ∧
      linkA7.hashes_map ≠ linkB7.hashes_map :=
  ⟨by decide, (c7_link_eq_hash linkA7 linkB7).2 (by decide), by decide,
    by decide, by decide⟩

/-! C8: credential redaction. -/

/-- C8 counterexample: the input's userinfo region is the string "example",
which the claim says may not occur anywhere in the redacted form; yet the
redacted url still contains "example" because the host starts with the same
label. -/
theorem c8_counterexample :
    userinfoRegionOf linkC8.url = some "example".toList ∧
      redacted linkC8 = "https://***@example.com/".toList ∧
      containsSubstr (redacted linkC8) "example".toList = true := by
  refine ⟨by decide, by decide, by decide⟩

/-- C8 amended: redaction replaces the username by *** and drops the
password, so its output is independent of the original credentials — two
links differing only in userinfo redact identically — and a link without an
authority redacts to its normalized url.  The literal no-substring property
fails when the userinfo text coincides with another component (see the
counterexample). -/
theorem c8_redaction_independent :
    ∀ (l : Link) (u1 u2 : Str) (p1 p2 : Option Str),
      (l.parsed.authority.isSome = true →
        redacted (withUserinfo l u1 p1) = redacted (withUserinfo l u2 p2)) ∧
      (l.parsed.authority = none → redacted l = l.normalized) := by
  intro l u1 u2 p1 p2
  constructor
  · intro h
    cases hA : l.parsed.authority with
    | none => rw [hA] at h; simp at h
    | some a => simp [redacted, withUserinfo, hA]
  · intro h
    simp [redacted, h]

/-- C8 witness: the amended statement applied at the counterexample link with
two unrelated credential pairs. -/
theorem c8_witness :
    linkC8.parsed.authority.isSome = true ∧
      redacted (withUserinfo linkC8 "alice".toList (some "secret".toList)) =
        redacted (withUserinfo linkC8 "bob".toList none) :=
  ⟨by decide,
    (c8_redaction_independent linkC8 "alice".toList "bob".toList
      (some "secret".toList) none).1 (by decide)⟩

/-! C10: versionless packages in evaluate_package. -/

/-- C10: when the canonical names agree and the package has no version,
evaluate_package returns the package unchanged for every allow_prerelease
argument, skipping the specifier and prerelease checks entirely. -/
theorem c10_versionless_short_circuit
    (pkg : Package) (req : Requirement)
    (hname : canonicalize_name req.name = canonicalize_name pkg.name)
    (hv : pkg.version = none) :
    ∀ ap : Option Bool, evaluate_package pkg req ap = .ok pkg := by
  intro ap
  simp [evaluate_package, hname, hv]

/-- C10 witness: a versionless package against a requirement that does carry
a version specifier (and a differently-capitalized name). -/
theorem c10_witness :
    pkgC10.version = none ∧
      evaluate_package pkgC10 reqC10 none = .ok pkgC10 ∧
      evaluate_package pkgC10 reqC10 (some false) = .ok pkgC10 :=
  ⟨rfl, c10_versionless_short_circuit pkgC10 reqC10 (by decide) rfl none,
    c10_versionless_short_circuit pkgC10 reqC10 (by decide) rfl (some false)⟩

/-! C6: prerelease admission in evaluate_package. -/

/-- C6: under matching names, a present version and a specifier admitting it,
evaluate_package with no explicit allow_prerelease rejects with
LinkMismatchError exactly when the version is a prerelease and no clause uses
one of the == === >= <= ~= operators with a prerelease right-hand side, and an
explicit allow_prerelease overrides that default. -/
theorem c6_prerelease_admission
    (pkg : Package) (req : Requirement) (spec : VersionSpecifiers) (v : Version)
    (hname : canonicalize_name req.name = canonicalize_name pkg.name)
    (hv : pkg.version = some v)
    (hs : req.version_or_url = some (.VersionSpecifier spec))
    (hc : spec.containsB v = true) :
    ((evaluate_package pkg req none).isErrKind .LinkMismatchError =
        (v.anyPrerelease && !(specAutoAllows spec))) ∧
      (∀ b : Bool, (evaluate_package pkg req (some b)).isErrKind
          .LinkMismatchError = (v.anyPrerelease && !b)) := by
  constructor
  · simp only [evaluate_package, hname, hv, hs, hc]
    cases hp : v.anyPrerelease <;> cases ha : specAutoAllows spec <;>
      simp [RResult.isErrKind, hp, ha, Option.getD]
  · intro b
    simp only [evaluate_package, hname, hv, hs, hc]
    cases hp : v.anyPrerelease <;> cases b <;>
      simp [RResult.isErrKind, hp, Option.getD]

/-- C6 witness: a prerelease package against a specifier with no prerelease
clause is rejected by default and admitted under an explicit true. -/
theorem c6_witness :
    ((evaluate_package pkgC6 reqC6 none).isErrKind .LinkMismatchError =
        (verPre.anyPrerelease && !(specAutoAllows specNoPre))) ∧
      ((evaluate_package pkgC6 reqC6 (some true)).isErrKind
          .LinkMismatchError = (verPre.anyPrerelease && !true)) ∧
      (verPre.anyPrerelease && !(specAutoAllows specNoPre)) = true :=
  ⟨(c6_prerelease_admission pkgC6 reqC6 specNoPre verPre (by decide) rfl rfl
      rfl).1,
    (c6_prerelease_admission pkgC6 reqC6 specNoPre verPre (by decide) rfl rfl
      rfl).2 true,
    by decide⟩

/-- The field content of a successfully constructed Link: everything passes
through Link::new unchanged apart from the normalized/vcs computation. -/
theorem linkNew_fields (parse : Str → Option Url) (url : Str)
    (cf yr rp : Option Str) (hs : Option (List (Str × Str)))
    (dm : Option DistMetadata) (l : Link)
    (h : linkNew parse url cf yr rp hs dm = .ok l) :
    l.url = url ∧ l.normalized = (linkNormalizeVcs url).1 ∧
      l.vcs = (linkNormalizeVcs url).2 ∧ l.comes_from = cf ∧
      l.yank_reason = yr ∧ l.requires_python = rp ∧ l.hashes_map = hs ∧
      l.dist_metadata = dm := by
  simp only [linkNew] at h
  cases hp : parse (linkNormalizeVcs url).1 with
  | none => rw [hp] at h; simp at h
  | some u =>
    rw [hp] at h
    have h2 : (⟨url, (linkNormalizeVcs url).1, u, (linkNormalizeVcs url).2,
        cf, yr, rp, hs, dm⟩ : Link) = l := RResult.ok.inj h
    subst h2
    exact ⟨rfl, rfl, rfl, rfl, rfl, rfl, rfl, rfl⟩

/-! C1: hash verification control flow. -/

/-- C1 counterexample: the link carries a sha256 digest that is in the
configured allow-list, so the claim demands success with no GET; check_hash
nevertheless reaches get_hash (the flag is true), and with a session whose
streamed digest differs it even rejects. -/
theorem c1_counterexample :
    linkHashes linkC1 = some [("sha256".toList, "aa".toList)] ∧
      evC1.hashes = [("sha256".toList, ["aa".toList])] ∧
      (checkHash extOkC1 evC1 linkC1).2 = true ∧
      (checkHash extOkC1 evC1 linkC1).1 = .ok linkC1 ∧
      (checkHash extBadC1 evC1 linkC1).1.isErr = true := by
  refine ⟨by decide, by decide, by decide, by decide, by decide⟩

/-- C1 amended: with a non-empty hashes configuration, a mismatch between a
configured allow-list and a link-provided digest fails before any GET, but in
every other case — even when a configured algorithm is present among the link
hashes and matches — the streaming download verification is still performed:
every success issues the GET. -/
theorem c1_check_hash_streams (ext : Ext) (ev : Evaluator) (link : Link)
    (h : ev.hashes ≠ []) :
    (∀ e, pageMismatch ev link = some e →
      checkHash ext ev link = (.err e, false)) ∧
    (∀ l', (checkHash ext ev link).1 = .ok l' →
      (checkHash ext ev link).2 = true) := by
  cases hc : ev.hashes with
  | nil => exact absurd hc h
  | cons hd tl =>
    obtain ⟨hashName, expected⟩ := hd
    constructor
    · intro e he
      simp only [checkHash, hc, he]
    · intro l' hok
      simp only [checkHash, hc] at hok ⊢
      cases hp : pageMismatch ev link with
      | some e => rw [hp] at hok; simp at hok
      | none =>
        cases hg : getHash ext link hashName with
        | err e => simp
        | ok pr =>
          obtain ⟨actual, link''⟩ := pr
          by_cases hm : listMem actual expected = true <;> simp [hm]

/-- C1 witness: the amended statement applied at the counterexample inputs
shows the GET flag of the successful run. -/
theorem c1_witness :
    evC1.hashes ≠ [] ∧ (checkHash extOkC1 evC1 linkC1).2 = true :=
  ⟨by decide,
    (c1_check_hash_streams extOkC1 evC1 linkC1 (by decide)).2 linkC1
      (by decide)⟩

/-! C4: dist_metadata extraction from HTML anchors. -/

/-- C4 counterexample: an anchor bearing only data-dist-info-metadata (and no
data-metadata) produces a link with absent dist_metadata, not the claimed
one-entry mapping: the parser reads only the data-metadata attribute. -/
theorem c4_counterexample :
    anchorC4.dataDistInfoMetadata = some "sha256=abc".toList ∧
      anchorC4.dataMetadata = none ∧
      parse_links_from_html joinC4 parseUrlC4 [anchorC4]
          "https://index/".toList = [linkC4] ∧
      linkC4.dist_metadata = none ∧
      (none : Option DistMetadata) ≠
        some (.Hashes [("sha256".toList, "abc".toList)]) := by
  refine ⟨rfl, rfl, by decide, rfl, by decide⟩

/-- C4 amended: every collected link's dist_metadata is computed from the
anchor's data-metadata attribute alone — absent attribute gives absent, a
value with an equals sign gives the one-entry mapping split once on it, any
other value gives enabled-true — and the data-dist-info-metadata attribute is
ignored entirely. -/
theorem c4_dist_metadata_from_attr :
    (∀ (join : Str → Str → Option Str) (parse : Str → Option Url)
        (fromUrl : Str) (a : Anchor) (l : Link),
      anchorToLink join parse fromUrl a = some l →
        l.dist_metadata = a.dataMetadata.map distMetadataOfAttr) ∧
    (∀ (join : Str → Str → Option Str) (parse : Str → Option Url)
        (fromUrl : Str) (a : Anchor) (m : Option Str),
      anchorToLink join parse fromUrl { a with dataDistInfoMetadata := m } =
        anchorToLink join parse fromUrl a) ∧
    distMetadataOfAttr "sha256=abc".toList =
      .Hashes [("sha256".toList, "abc".toList)] ∧
    distMetadataOfAttr "true".toList = .Enabled true := by
  refine ⟨?_, ?_, by decide, by decide⟩
  · intro join parse fromUrl a l h
    unfold anchorToLink at h
    obtain ⟨href, ha, h⟩ := Option.bind_eq_some.mp h
    obtain ⟨url, hj, h⟩ := Option.bind_eq_some.mp h
    cases hn : linkNew parse url (some fromUrl) a.dataYanked
        a.dataRequiresPython none (a.dataMetadata.map distMetadataOfAttr)
        with
    | err e => rw [hn] at h; simp at h
    | ok l2 =>
      rw [hn] at h
      have hl : l2 = l := Option.some.inj h
      subst hl
      exact (linkNew_fields parse url (some fromUrl) a.dataYanked
        a.dataRequiresPython none (a.dataMetadata.map distMetadataOfAttr)
        l2 hn).2.2.2.2.2.2.2
  · intro join parse fromUrl a m
    rfl

/-- C4 witness: the amended statement applied to an anchor that carries
data-metadata with an equals sign. -/
theorem c4_witness :
    anchorToLink joinC4 parseUrlC4 "https://index/".toList anchorC4m =
        some linkC4m ∧
      linkC4m.dist_metadata = anchorC4m.dataMetadata.map distMetadataOfAttr :=
  ⟨by decide,
    c4_dist_metadata_from_attr.1 joinC4 parseUrlC4 "https://index/".toList
      anchorC4m linkC4m (by decide)⟩

/-! C9: the frame property of evaluate_link. -/

theorem getHash_frame (ext : Ext) (link : Link) (a d : Str) (l' : Link)
    (h : getHash ext link a = .ok (d, l')) :
    l'.url = link.url ∧ l'.normalized = link.normalized ∧
      l'.parsed = link.parsed ∧ l'.vcs = link.vcs ∧
      l'.comes_from = link.comes_from ∧ l'.yank_reason = link.yank_reason ∧
      l'.requires_python = link.requires_python ∧
      l'.dist_metadata = link.dist_metadata ∧
      l'.hashes_map = some (assocInsert a d (link.hashes_map.getD [])) := by
  simp only [getHash] at h
  cases hs : ext.send link.normalized with
  | error m => rw [hs] at h; simp at h
  | ok resp =>
    rw [hs] at h
    by_cases hsup : hasherSupported a = true
    · simp only [hsup, if_true] at h
      cases hre : resp.readErr with
      | some m => rw [hre] at h; simp at h
      | none =>
        rw [hre] at h
        have h2 : ((ext.digestHex a resp.chunks.flatten, { link with
            hashes_map := some (assocInsert a
              (ext.digestHex a resp.chunks.flatten)
              (link.hashes_map.getD [])) }) : Str × Link) = (d, l') :=
          RResult.ok.inj h
        have hd : ext.digestHex a resp.chunks.flatten = d :=
          congrArg Prod.fst h2
        have hl : ({ link with hashes_map := some (assocInsert a
            (ext.digestHex a resp.chunks.flatten)
            (link.hashes_map.getD [])) } : Link) = l' :=
          congrArg Prod.snd h2
        subst hd
        subst hl
        exact ⟨rfl, rfl, rfl, rfl, rfl, rfl, rfl, rfl, rfl⟩
    · simp only [hsup, if_false] at h
      simp at h

theorem checkHash_frame (ext : Ext) (ev : Evaluator) (link l' : Link)
    (h : (checkHash ext ev link).1 = .ok l') :
    l' = link ∨
      ∃ a d,
        (l'.url = link.url ∧ l'.normalized = link.normalized ∧
          l'.parsed = link.parsed ∧ l'.vcs = link.vcs ∧
          l'.comes_from = link.comes_from ∧
          l'.yank_reason = link.yank_reason ∧
          l'.requires_python = link.requires_python ∧
          l'.dist_metadata = link.dist_metadata) ∧
        l'.hashes_map = some (assocInsert a d (link.hashes_map.getD [])) := by
  cases hc : ev.hashes with
  | nil =>
    simp only [checkHash, hc] at h
    exact Or.inl (RResult.ok.inj h).symm
  | cons hd tl =>
    obtain ⟨hashName, expected⟩ := hd
    simp only [checkHash, hc] at h
    cases hp : pageMismatch ev link with
    | some e => rw [hp] at h; simp at h
    | none =>
      rw [hp] at h
      cases hg : getHash ext link hashName with
      | err e => rw [hg] at h; simp at h
      | ok pr =>
        obtain ⟨actual, link''⟩ := pr
        rw [hg] at h
        by_cases hm : listMem actual expected = true
        · simp only [hm, if_true] at h
          have hl : link'' = l' := RResult.ok.inj h
          subst hl
          obtain ⟨h1, h2, h3, h4, h5, h6, h7, h8, h9⟩ :=
            getHash_frame ext link hashName actual link'' hg
          exact Or.inr ⟨hashName, actual, ⟨h1, h2, h3, h4, h5, h6, h7, h8⟩, h9⟩
        · simp only [hm, if_false] at h
          simp at h

/-- C9: whenever evaluate_link accepts, the returned package carries the
configured name and a present version, and its link agrees with the input
link on every field except that hashes_map may have gained the one freshly
computed digest entry written back by get_hash. -/
theorem c9_evaluate_link_frame (ext : Ext) (ev : Evaluator) (link : Link)
    (pkg : Package) (h : (evaluateLink ext ev link).1 = .ok pkg) :
    pkg.name = ev.package_name ∧
      (pkg.link.url = link.url ∧ pkg.link.normalized = link.normalized ∧
        pkg.link.parsed = link.parsed ∧ pkg.link.vcs = link.vcs ∧
        pkg.link.comes_from = link.comes_from ∧
        pkg.link.yank_reason = link.yank_reason ∧
        pkg.link.requires_python = link.requires_python ∧
        pkg.link.dist_metadata = link.dist_metadata) ∧
      (pkg.link.hashes_map = link.hashes_map ∨
        ∃ a d, pkg.link.hashes_map =
          some (assocInsert a d (link.hashes_map.getD []))) := by
  unfold evaluateLink at h
  cases hf : checkFormat ev.format_control link ev.package_name with
  | err e => rw [hf] at h; simp at h
  | ok u =>
    rw [hf] at h
    cases hy : checkYanked ev link with
    | err e => rw [hy] at h; simp at h
    | ok u2 =>
      rw [hy] at h
      cases hr : checkRequiresPython ext ev link with
      | err e => rw [hr] at h; simp at h
      | ok u3 =>
        rw [hr] at h
        cases hv : extractVersion ext ev link with
        | err e => rw [hv] at h; simp at h
        | ok version =>
          rw [hv] at h
          cases hch : checkHash ext ev link with
          | mk fst snd =>
            rw [hch] at h
            cases fst with
            | err e => simp at h
            | ok link' =>
              have hpkg : pkg =
                  { name := ev.package_name, version := some version,
                    link := link' } := (RResult.ok.inj h).symm
              subst hpkg
              have hfr := checkHash_frame ext ev link link' (by rw [hch])
              refine ⟨rfl, ?_, ?_⟩
              · rcases hfr with hl | ⟨a, d, hfields, _⟩
                · subst hl
                  exact ⟨rfl, rfl, rfl, rfl, rfl, rfl, rfl, rfl⟩
                · exact hfields
              · rcases hfr with hl | ⟨a, d, _, h9⟩
                · subst hl
                  exact Or.inl rfl
                · exact Or.inr ⟨a, d, h9⟩

/-- C9 witness: a concrete accepting run of evaluate_link on a wheel link
with an empty hash configuration. -/
theorem c9_witness :
    (evaluateLink extW evW linkW).1 = .ok pkgW ∧
      pkgW.link.url = linkW.url ∧
      (pkgW.link.hashes_map = linkW.hashes_map ∨
        ∃ a d, pkgW.link.hashes_map =
          some (assocInsert a d (linkW.hashes_map.getD []))) :=
  ⟨by decide,
    (c9_evaluate_link_frame extW evW linkW pkgW (by decide)).2.1.1,
    (c9_evaluate_link_frame extW evW linkW pkgW (by decide)).2.2⟩

end Unearth
